import Mathlib

/-!
Verification of the SuperScreenAgent decision-and-control engine.

Shallow embedding of the Python sources in `superagent/`:
  * `memory.py`    — `ShortTermMemory` (bounded deque, loop detection) and
                     `WorkflowMemory` (fuzzy workflow retrieval);
  * `workflows.py` — `WorkflowEngine` (step interpreter, variable
                     substitution, retries);
  * `core.py`      — `SuperAgent.execute_task` (OODA control loop);
  * `enhanced_core.py` — hierarchical planner fallbacks.

Strings are modelled as `List Char` (`Str`).  External collaborators
(vision API, action executor, wall clock) are modelled as explicit
environments supplying the value each call would return.
-/

/-- Texts are lists of characters. -/
abbrev Str := List Char

/-- Boolean test that `p` is a prefix of `t` (Python `str.startswith`,
used here to implement `in` and `str.replace`). -/
def isPre : Str → Str → Bool
  | [], _ => true
  | _ :: _, [] => false
  | a :: as, b :: bs => a == b && isPre as bs

/-- Boolean substring test, Python's `needle in haystack`. -/
def occursIn (p : Str) : Str → Bool
  | [] => p == []
  | c :: rest => isPre p (c :: rest) || occursIn p rest

/-- Python `text.replace(p, v)` for a nonempty pattern `p`: replace every
leftmost non-overlapping occurrence of `p` by `v`.  Phrased structurally
on the text with a skip counter: after emitting `v`, the `skip` counter
discards the rest of the matched occurrence (its first character is the
one already inspected, hence `p.length - 1`). -/
def replaceAllAux (p v : Str) : Nat → Str → Str
  | _, [] => []
  | skip + 1, _ :: rest => replaceAllAux p v skip rest
  | 0, c :: rest =>
    if !p.isEmpty && isPre p (c :: rest) then
      v ++ replaceAllAux p v (p.length - 1) rest
    else
      c :: replaceAllAux p v 0 rest

def replaceAll (p v t : Str) : Str := replaceAllAux p v 0 t

/-- The brace placeholder `"{" ++ key ++ "}"` built by
`WorkflowEngine._substitute_variables`. -/
def placeholder (k : Str) : Str := '{' :: (k ++ ['}'])

/-- `WorkflowEngine._substitute_variables` (workflows.py:413-424): for each
`(key, value)` of the bindings table, in insertion order, replace every
occurrence of `{key}` in the running result.  (The Python `if placeholder
in result` guard is redundant because `str.replace` is the identity when
the pattern does not occur.) -/
def substitute_variables (ctx : List (Str × Str)) (t : Str) : Str :=
  ctx.foldl (fun r kv => replaceAll (placeholder kv.1) kv.2 r) t

/-- Modelled from the spec: "replaces every occurrence of `{name}` for
every key present in the bindings table, leaving unmatched placeholders
(no binding) untouched" — a single simultaneous left-to-right pass over
the text; at each position the first binding whose placeholder starts
there is expanded to its value, every other character is copied. -/
def specSimAux (ctx : List (Str × Str)) : Nat → Str → Str
  | _, [] => []
  | skip + 1, _ :: rest => specSimAux ctx skip rest
  | 0, c :: rest =>
    match ctx.find? (fun kv => isPre (placeholder kv.1) (c :: rest)) with
    | some kv => kv.2 ++ specSimAux ctx ((placeholder kv.1).length - 1) rest
    | none => c :: specSimAux ctx 0 rest

def specSimultaneousSubst (ctx : List (Str × Str)) (t : Str) : Str := specSimAux ctx 0 t

/-! ## Short-term memory (memory.py) -/

/-- The slice of a `MemoryEntry` that `detect_loop` and the control loop
inspect: the serialized action's `'type'` string and the success flag. -/
structure MemEntry where
  actionType : Str
  success : Bool
deriving DecidableEq, Repr

/-- `ShortTermMemory.add` (memory.py:56-67): append to a
`deque(maxlen=max_size)` — beyond capacity the oldest entry is evicted. -/
def stm_add {β : Type} (max_size : Nat) (mem : List β) (e : β) : List β :=
  let m := mem ++ [e]
  if max_size < m.length then m.drop (m.length - max_size) else m

/-- A sequence of `add` calls starting from an empty memory. -/
def stm_run {β : Type} (max_size : Nat) (es : List β) : List β :=
  es.foldl (stm_add max_size) []

/-- `ShortTermMemory.detect_loop` (memory.py:112-128): `False` when fewer
than `threshold` entries; otherwise `True` iff the action-type strings of
the last `threshold` entries form a singleton set.  (The Python slice
`[-threshold:]` is the whole list when `threshold = 0`.) -/
def detect_loop (mem : List MemEntry) (threshold : Nat) : Bool :=
  if mem.length < threshold then false
  else
    let recent :=
      if threshold = 0 then mem.map (fun e => e.actionType)
      else (mem.drop (mem.length - threshold)).map (fun e => e.actionType)
    recent.dedup.length == 1

/-! ## Long-term workflow memory (memory.py, `WorkflowMemory`) -/

/-- Python whitespace for `str.strip()` / `str.split()`. -/
def isSpaceChar (c : Char) : Bool :=
  c = ' ' || c = '\t' || c = '\n' || c = '\r' || c = '\x0b' || c = '\x0c'

/-- Python `str.strip()`. -/
def stripStr (s : Str) : Str :=
  ((s.dropWhile isSpaceChar).reverse.dropWhile isSpaceChar).reverse

/-- Python `str.lower()` (character-wise, as `Char.toLower`). -/
def lowerStr (s : Str) : Str := s.map Char.toLower

/-- `WorkflowMemory._normalize_task` (memory.py:241-243):
`task.lower().strip()`. -/
def normalize_task (t : Str) : Str := stripStr (lowerStr t)

/-- Python `str.split()` with no argument: split on whitespace runs,
dropping empty pieces.  `acc` holds the current word reversed. -/
def splitWordsAux : Str → Str → List Str
  | [], acc => if acc = [] then [] else [acc.reverse]
  | c :: rest, acc =>
    if isSpaceChar c then
      if acc = [] then splitWordsAux rest []
      else acc.reverse :: splitWordsAux rest []
    else splitWordsAux rest (c :: acc)

def splitWords (s : Str) : List Str := splitWordsAux s []

/-- Python `set(s.split())`, as a duplicate-free list. -/
def wordSet (s : Str) : List Str := (splitWords s).dedup

/-- `len(task_words & workflow_words)` for duplicate-free lists. -/
def overlapCount (a b : List Str) : Nat := (a.filter (fun w => w ∈ b)).length

/-- Python `dict` lookup on the insertion-ordered association list
(keys are unique in a `dict`, so first match is the match). -/
def lookupStr {α : Type} (k : Str) : List (Str × α) → Option α
  | [] => none
  | (k', v) :: rest => if k' = k then some v else lookupStr k rest

/-- The word-overlap score `get_similar_workflow` gives a stored record
against a (normalized) task key. -/
def fuzzyScore (task_key : Str) (workflow_key : Str) : Nat :=
  overlapCount (wordSet (lowerStr task_key)) (wordSet (lowerStr workflow_key))

/-- `WorkflowMemory.get_similar_workflow` (memory.py:188-214): exact
normalized-key hit first; otherwise scan all records keeping the first
record that strictly beats the running best word-overlap score, and
return it only when the best score is at least 2. -/
def get_similar_workflow {α : Type} (store : List (Str × α)) (task : Str) : Option α :=
  let task_key := normalize_task task
  match lookupStr task_key store with
  | some d => some d
  | none =>
    let best := store.foldl
      (fun acc kv => if acc.2 < fuzzyScore task_key kv.1 then (some kv.2, fuzzyScore task_key kv.1) else acc)
      ((none : Option α), 0)
    if 2 ≤ best.2 then best.1 else none

/-! ## Task-step retry loop (workflows.py, `_execute_task_step`) -/

/-- The retry loop of `WorkflowEngine._execute_task_step`
(workflows.py:227-241), `for attempt in range(retry_count + 1)` phrased
as structural recursion on the number of attempts still allowed
(`remaining = retry_count - attempt`).  `respond attempt` is the success
flag of the underlying `SuperAgent.execute_task` call.  Returns
(step success, number of attempts made, backoff sleeps in seconds). -/
def run_attempts_aux (respond : Nat → Bool) (attempt : Nat) : Nat → Bool × Nat × List Nat
  | 0 => if respond attempt then (true, attempt + 1, []) else (false, attempt + 1, [])
  | remaining + 1 =>
    if respond attempt then (true, attempt + 1, [])
    else
      let r := run_attempts_aux respond (attempt + 1) remaining
      (r.1, r.2.1, 2 ^ attempt :: r.2.2)

/-- All attempts of a TASK step with the given `retry_count`. -/
def run_attempts (respond : Nat → Bool) (retry_count : Nat) : Bool × Nat × List Nat :=
  run_attempts_aux respond 0 retry_count

/-! ## Workflow engine (workflows.py, `WorkflowEngine`) -/

/-- The per-run variable bindings table (`WorkflowEngine.context`). -/
abbrev Ctx := List (Str × Str)

/-- Python `dict` assignment `ctx[k] = v`: overwrite in place if the key
exists, otherwise append (insertion order preserved). -/
def setVar (ctx : Ctx) (k v : Str) : Ctx :=
  if ctx.any (fun p => p.1 = k) then
    ctx.map (fun p => if p.1 = k then (k, v) else p)
  else ctx ++ [(k, v)]

/-- `WorkflowStep` (workflows.py:39-73) as the discriminated variant it
is dispatched as; each constructor carries the fields its branch of
`_execute_step` reads, plus the shared `optional` flag. -/
inductive WorkflowStep where
  | task (text : Option Str) (timeout : Nat) (retry_count : Nat) (optional : Bool)
  | extract (what : Option Str) (extract_prompt : Option Str) (save_as : Option Str)
      (optional : Bool)
  | decision (condition : Option (Ctx → Bool)) (if_true : List WorkflowStep)
      (if_false : List WorkflowStep) (optional : Bool)
  | loop (items : Option (List Str)) (item_var : Str) (loop_steps : List WorkflowStep)
      (max_iterations : Nat) (optional : Bool)
  | wait_human (confirmation_message : Option Str) (optional : Bool)
  | pause (duration : Nat) (optional : Bool)

/-- The shared `optional` field. -/
def WorkflowStep.optional : WorkflowStep → Bool
  | .task _ _ _ o => o
  | .extract _ _ _ o => o
  | .decision _ _ _ o => o
  | .loop _ _ _ _ o => o
  | .wait_human _ o => o
  | .pause _ o => o

/-- The engine's external collaborators: `agentResp n` is the success of
the `n`-th `SuperAgent.execute_task` call, `extractResp n prompt` the
text the `n`-th screen extraction yields (`none` = capture or vision
failure, the empty string = falsy extraction). -/
structure EngineEnv where
  agentResp : Nat → Bool
  extractResp : Nat → Str → Option Str

/-- The engine's mutable state during one `execute` run: the bindings
table and step counter from the source, plus the interaction traces
(call texts, call counters, backoff sleeps) the environment model
needs. -/
structure EngineState where
  context : Ctx
  step_count : Nat
  agentIdx : Nat
  extractIdx : Nat
  taskCalls : List (Option Str)
  sleeps : List Nat
deriving DecidableEq, Repr

def incStep (st : EngineState) : EngineState :=
  { st with step_count := st.step_count + 1 }

/-- `WorkflowEngine._execute_task_step` (workflows.py:221-241):
substitute variables into the task text once, then retry the agent call
with exponential backoff. -/
def exec_task_step (env : EngineEnv) (text : Option Str) (retry_count : Nat)
    (st : EngineState) : Bool × EngineState :=
  let t := text.map (substitute_variables st.context)
  let r := run_attempts (fun k => env.agentResp (st.agentIdx + k)) retry_count
  (r.1, { st with agentIdx := st.agentIdx + r.2.1,
                  taskCalls := st.taskCalls ++ List.replicate r.2.1 t,
                  sleeps := st.sleeps ++ r.2.2 })

/-- `WorkflowEngine._execute_extract_step` (workflows.py:243-278): fail
on a missing `save_as`; build the (custom or default) prompt, substitute
variables into it, ask the environment; store a non-empty result under
`save_as`, fail otherwise. -/
def exec_extract_step (env : EngineEnv) (what extract_prompt save_as : Option Str)
    (st : EngineState) : Bool × EngineState :=
  match save_as with
  | none => (false, st)
  | some varName =>
    let prompt0 := match extract_prompt with
      | some p => p
      | none =>
        "Extract the ".toList ++ what.getD [] ++
          " from this screenshot. Return ONLY the extracted value, nothing else.".toList
    let prompt := substitute_variables st.context prompt0
    let st := { st with extractIdx := st.extractIdx + 1 }
    match env.extractResp (st.extractIdx - 1) prompt with
    | none => (false, st)
    | some s =>
      if s = [] then (false, st)
      else (true, { st with context := setVar st.context varName s })

mutual

/-- `WorkflowEngine._execute_steps` (workflows.py:180-190): run steps in
order; a failing step aborts with `False` unless it is `optional`. -/
def exec_steps (env : EngineEnv) : List WorkflowStep → EngineState → Bool × EngineState
  | [], st => (true, st)
  | s :: rest, st =>
    let r := exec_step env s st
    if r.1 then exec_steps env rest r.2
    else if s.optional then exec_steps env rest r.2
    else (false, r.2)
termination_by steps _ => (sizeOf steps, 0)

/-- `WorkflowEngine._execute_step` (workflows.py:192-219) with the
per-type handlers inlined for DECISION (243-300), LOOP (302-326),
WAIT_HUMAN (328-342) and PAUSE (344-348). -/
def exec_step (env : EngineEnv) : WorkflowStep → EngineState → Bool × EngineState
  | .task text _timeout retry_count _opt, st => exec_task_step env text retry_count (incStep st)
  | .extract what ep sa _opt, st => exec_extract_step env what ep sa (incStep st)
  | .decision condition if_true if_false _opt, st =>
    let st := incStep st
    match condition with
    | none => (false, st)
    | some cond => if cond st.context then exec_steps env if_true st else exec_steps env if_false st
  | .loop items item_var loop_steps max_iterations opt, st =>
    let st := incStep st
    match items with
    | none => (true, st)
    | some its =>
      if its.isEmpty then (true, st)
      else exec_loop env (its.take max_iterations) item_var loop_steps opt st
  | .wait_human _msg _opt, st => (true, incStep st)
  | .pause _dur _opt, st => (true, incStep st)
termination_by s _ => (sizeOf s, 0)

/-- The `for item in items_to_process` body of `_execute_loop_step`:
bind the loop variable, run the body; abort on a body failure unless the
loop step itself is `optional`. -/
def exec_loop (env : EngineEnv) : List Str → Str → List WorkflowStep → Bool → EngineState →
    Bool × EngineState
  | [], _, _, _, st => (true, st)
  | item :: rest, item_var, body, opt, st =>
    let st1 := { st with context := setVar st.context item_var item }
    let r := exec_steps env body st1
    if !r.1 && !opt then (false, r.2)
    else exec_loop env rest item_var body opt r.2
termination_by items _ body _ _ => (sizeOf body, items.length + 1)

end

mutual

/-- `WorkflowEngine._count_steps` (workflows.py:426-437). -/
def count_steps : List WorkflowStep → Nat
  | [] => 0
  | s :: rest => count_step s + count_steps rest

def count_step : WorkflowStep → Nat
  | .decision _ if_true if_false _ => 1 + count_steps if_true + count_steps if_false
  | .loop items _ loop_steps _ _ => 1 + (items.getD []).length * loop_steps.length
  | _ => 1

end

/-- `WorkflowResult` (workflows.py:76-85). -/
structure WorkflowResultM where
  success : Bool
  steps_completed : Nat
  total_steps : Nat
  extracted_data : Ctx
  failed_at : Option WorkflowStep
  error : Option Str

/-- The engine state at the start of `execute` (workflows.py:149-151). -/
def initState : EngineState :=
  { context := [], step_count := 0, agentIdx := 0, extractIdx := 0, taskCalls := [], sleeps := [] }

/-- `WorkflowEngine.execute` (workflows.py:140-178), non-exception path:
reset the bindings table and step counter, run the steps, and package a
`WorkflowResult` — note that neither `failed_at` nor `error` is ever
assigned on this path. -/
def execute (env : EngineEnv) (steps : List WorkflowStep) : WorkflowResultM :=
  let r := exec_steps env steps initState
  { success := r.1
    steps_completed := r.2.step_count
    total_steps := count_steps steps
    extracted_data := r.2.context
    failed_at := none
    error := none }

/-! ## Control loop (core.py, `SuperAgent.execute_task`) -/

/-- `ActionType` (actions.py:12-25). -/
inductive ActionType where
  | click | double_click | right_click | typeText | hotkey | scroll | drag
  | wait | done | explore | verify | open_app
deriving DecidableEq, Repr

/-- The Python enum's `.value` strings (stored into memory by
`Action.to_dict`). -/
def ActionType.value : ActionType → Str
  | .click => "click".toList
  | .double_click => "double_click".toList
  | .right_click => "right_click".toList
  | .typeText => "type".toList
  | .hotkey => "hotkey".toList
  | .scroll => "scroll".toList
  | .drag => "drag".toList
  | .wait => "wait".toList
  | .done => "done".toList
  | .explore => "explore".toList
  | .verify => "verify".toList
  | .open_app => "open_app".toList

/-- The fields of `Action` (actions.py:28-55) the control loop reads. -/
structure ActionM where
  type : ActionType
  x : Option Int := none
  y : Option Int := none
deriving DecidableEq, Repr

/-- The control loop's collaborators, indexed by the (1-based) iteration
that consults them: `elapsed i` is the wall-clock `time.time() -
start_time` seen by iteration `i`'s timeout check, `ooda i` the decision
`_ooda_cycle` yields (`none` = screen capture or vision failure), and
`execSuccess i` the `ActionResult.success` of dispatching that
iteration's action. -/
structure LoopEnv where
  elapsed : Nat → Nat
  ooda : Nat → Option ActionM
  execSuccess : Nat → Bool

/-- `SuperAgent.execute_task`'s `TaskResult` (core.py:29-37) plus the
diagnostics this model exposes: the value of the `iteration` counter at
return and the iterations at which `_explore_alternative` was called. -/
structure LoopOutcome where
  success : Bool
  actions_taken : Nat
  error : Option Str
  itersDone : Nat
  explorations : List Nat
deriving DecidableEq, Repr

/-- `f"Timeout after {timeout}s"` (core.py:112). -/
def timeoutMsg (timeout : Nat) : Str :=
  "Timeout after ".toList ++ (Nat.repr timeout).toList ++ "s".toList

/-- `"Max iterations reached without completion"` (core.py:166). -/
def maxIterMsg : Str := "Max iterations reached without completion".toList

/-- The `while iteration < self.max_iterations` loop of
`SuperAgent.execute_task` (core.py:101-167), structural on the number of
iterations left (`remaining = max_iterations - iteration`).  When
`_ooda_cycle` yields no action the code `break`s and falls through to
the same max-iterations return.  Exploration is attempted only when the
dispatched action failed *and* `detect_loop(threshold=3)` fires on the
just-updated memory; its result is discarded (core.py:148-154). -/
def ooda_loop (env : LoopEnv) (timeout : Nat) :
    Nat → Nat → Nat → List MemEntry → List Nat → LoopOutcome
  | 0, iter, actions, _mem, expl =>
    { success := false, actions_taken := actions, error := some maxIterMsg,
      itersDone := iter, explorations := expl }
  | remaining + 1, iter, actions, mem, expl =>
    let i := iter + 1
    if timeout < env.elapsed i then
      { success := false, actions_taken := actions, error := some (timeoutMsg timeout),
        itersDone := i, explorations := expl }
    else
      match env.ooda i with
      | none =>
        { success := false, actions_taken := actions, error := some maxIterMsg,
          itersDone := i, explorations := expl }
      | some a =>
        if a.type = ActionType.done then
          { success := true, actions_taken := actions, error := none,
            itersDone := i, explorations := expl }
        else
          let ok := env.execSuccess i
          let mem' := stm_add 10 mem { actionType := a.type.value, success := ok }
          let expl' := if !ok && detect_loop mem' 3 then expl ++ [i] else expl
          ooda_loop env timeout remaining i (actions + 1) mem' expl'

/-- `SuperAgent.execute_task` (core.py:76-177), non-exception path:
memory cleared, then the iteration loop with `max_size=10` short-term
memory (core.py:67). -/
def execute_task (env : LoopEnv) (max_iterations timeout : Nat) : LoopOutcome :=
  ooda_loop env timeout max_iterations 0 0 [] []

/-! ## Hierarchical planner (enhanced_core.py) -/

inductive PlanLevel where
  | strategic | tactical | operational
deriving DecidableEq, Repr

/-- `Plan` (enhanced_core.py:39-58). -/
structure PlanM where
  goal : Str
  level : PlanLevel
  steps : List Str
  current_step : Nat := 0
  confidence : ℚ := 0
  estimated_actions : Nat := 0
  verification_points : List Str := []
deriving DecidableEq, Repr

/-- What `advanced_vision.analyze_with_vision_api` hands back for a
planning prompt: each JSON field present or absent. -/
structure PlanResp where
  steps : Option (List Str)
  confidence : Option ℚ
  estimated_actions : Option Nat
  verification_points : Option (List Str)

/-- One planning call's outcome: the call (screen capture included)
raised, or it returned `None` or a parsed dictionary. -/
inductive VisionPlanOutcome where
  | raises
  | result (r : Option PlanResp)

/-- `EnhancedSuperAgent._create_strategic_plan` (enhanced_core.py:254-328):
a result with a `'steps'` key becomes the plan; a `None` result or one
without `'steps'` degrades to the single-step fallback plan; an
exception anywhere in the `try` block returns `None`. -/
def create_strategic_plan (task : Str) (vision : VisionPlanOutcome) : Option PlanM :=
  match vision with
  | .raises => none
  | .result r =>
    match r with
    | some pr =>
      match pr.steps with
      | some ss =>
        some { goal := task, level := .strategic, steps := ss,
               confidence := pr.confidence.getD (7/10),
               estimated_actions := pr.estimated_actions.getD 20,
               verification_points := pr.verification_points.getD [] }
      | none =>
        some { goal := task, level := .strategic, steps := [task],
               confidence := 1/2, estimated_actions := 10 }
    | none =>
      some { goal := task, level := .strategic, steps := [task],
             confidence := 1/2, estimated_actions := 10 }

/-- `EnhancedSuperAgent._create_tactical_plan` (enhanced_core.py:330-385):
as above, except that the `except` clause only logs, so both a missing
decomposition and an exception fall through to the single-step fallback
plan — this function always returns a `Plan`. -/
def create_tactical_plan (goal overall_task : Str) (vision : VisionPlanOutcome) : PlanM :=
  match vision with
  | .raises =>
    { goal := goal, level := .tactical, steps := [goal],
      confidence := 1/2, estimated_actions := 5 }
  | .result r =>
    match r with
    | some pr =>
      match pr.steps with
      | some ss =>
        { goal := goal, level := .tactical, steps := ss,
          confidence := pr.confidence.getD (7/10),
          estimated_actions := pr.estimated_actions.getD 5 }
      | none =>
        { goal := goal, level := .tactical, steps := [goal],
          confidence := 1/2, estimated_actions := 5 }
    | none =>
      { goal := goal, level := .tactical, steps := [goal],
        confidence := 1/2, estimated_actions := 5 }

/-! # Theorems -/

/-! ## C5 — short-term memory is a ring buffer -/

lemma stm_add_eq {β : Type} (N : Nat) (mem : List β) (e : β) :
    stm_add N mem e = (mem ++ [e]).drop (mem.length + 1 - N) := by
  simp only [stm_add]
  split
  · next h =>
    congr 1
    simp only [List.length_append, List.length_singleton]
  · next h =>
    have h0 : mem.length + 1 - N = 0 := by
      simp only [List.length_append, List.length_singleton] at h
      omega
    rw [h0, List.drop_zero]

lemma stm_foldl {β : Type} (N : Nat) :
    ∀ (es mem : List β), mem.length ≤ N →
      es.foldl (stm_add N) mem = (mem ++ es).drop (mem.length + es.length - N) := by
  intro es
  induction es with
  | nil =>
    intro mem h
    simp only [List.foldl_nil, List.append_nil, List.length_nil, Nat.add_zero]
    rw [Nat.sub_eq_zero_of_le h, List.drop_zero]
  | cons e es ih =>
    intro mem h
    have hlen : (stm_add N mem e).length = mem.length + 1 - (mem.length + 1 - N) := by
      rw [stm_add_eq]
      simp
    have hle : (stm_add N mem e).length ≤ N := by omega
    rw [List.foldl_cons, ih (stm_add N mem e) hle, hlen, stm_add_eq]
    rw [← List.drop_append_of_le_length
          (by simp only [List.length_append, List.length_singleton]; omega),
        List.drop_drop]
    rw [List.append_assoc, List.singleton_append]
    congr 1
    simp only [List.length_cons]
    omega

/-- C5: for every Short-Term Memory capacity `N` and every insertion
sequence, the length never exceeds `N` (at every intermediate moment,
i.e. after every prefix of the insertions), and once more than `N`
entries have been inserted the memory holds exactly the last `N`
inserted entries in insertion order. -/
theorem C5_short_term_memory_ring_buffer :
    ∀ (N : Nat) (es : List MemEntry),
      (∀ pre : List MemEntry, pre <+: es → (stm_run N pre).length ≤ N) ∧
      (N < es.length → stm_run N es = es.drop (es.length - N)) := by
  intro N es
  constructor
  · intro pre _
    rw [stm_run, stm_foldl N pre [] (by simp)]
    simp only [List.nil_append, List.length_nil, Nat.zero_add, List.length_drop]
    omega
  · intro _
    rw [stm_run, stm_foldl N es [] (by simp)]
    simp

/-- Witness for C5 at `N = 2` and three concrete insertions. -/
theorem C5_witness :
    stm_run 2 [({ actionType := "a".toList, success := true } : MemEntry),
               { actionType := "b".toList, success := true },
               { actionType := "c".toList, success := true }] =
      [({ actionType := "b".toList, success := true } : MemEntry),
       { actionType := "c".toList, success := true }] := by
  have h := (C5_short_term_memory_ring_buffer 2
    [({ actionType := "a".toList, success := true } : MemEntry),
     { actionType := "b".toList, success := true },
     { actionType := "c".toList, success := true }]).2 (by decide)
  exact h.trans (by decide)

/-! ## C6 — loop detection -/

lemma dedup_singleton_of_all_eq {α : Type} [DecidableEq α] :
    ∀ (l : List α) (a : α), (∀ x ∈ l, x = a) → l ≠ [] → l.dedup = [a] := by
  intro l
  induction l with
  | nil => intro a _ h; exact absurd rfl h
  | cons c t ih =>
    intro a hall _
    have hc : c = a := hall c (by simp)
    subst hc
    cases t with
    | nil => rw [List.dedup_cons_of_not_mem (by simp), List.dedup_nil]
    | cons y t' =>
      have hy : y = c := hall y (by simp)
      have hmem : c ∈ y :: t' := by rw [hy]; exact List.mem_cons_self _ _
      rw [List.dedup_cons_of_mem hmem]
      exact ih c (fun x hx => hall x (List.mem_cons_of_mem _ hx)) (by simp)

lemma dedup_length_one_iff {α : Type} [DecidableEq α] (l : List α) :
    l.dedup.length = 1 ↔ l ≠ [] ∧ ∀ x ∈ l, ∀ y ∈ l, x = y := by
  constructor
  · intro h
    obtain ⟨a, ha⟩ := List.length_eq_one.mp h
    have hmem : ∀ x ∈ l, x = a := by
      intro x hx
      have hxd : x ∈ l.dedup := List.mem_dedup.mpr hx
      rw [ha] at hxd
      simpa using hxd
    refine ⟨?_, fun x hx y hy => (hmem x hx).trans (hmem y hy).symm⟩
    rintro rfl
    simp at ha
  · rintro ⟨hne, hall⟩
    obtain ⟨c, t, rfl⟩ := List.exists_cons_of_ne_nil hne
    rw [dedup_singleton_of_all_eq (c :: t) c (fun x hx => hall x hx c (by simp)) (by simp)]
    rfl

/-- C6: with at least 3 entries, `detect_loop(3)` is true iff the three
most recent entries carry pairwise identical action-type strings (hence
false as soon as the window holds two distinct types); with fewer than 3
entries it is false. -/
theorem C6_detect_loop_spec :
    ∀ mem : List MemEntry,
      (mem.length < 3 → detect_loop mem 3 = false) ∧
      (3 ≤ mem.length →
        (detect_loop mem 3 = true ↔
          ∀ x ∈ (mem.drop (mem.length - 3)).map (fun e => e.actionType),
          ∀ y ∈ (mem.drop (mem.length - 3)).map (fun e => e.actionType), x = y)) := by
  intro mem
  constructor
  · intro h
    simp [detect_loop, h]
  · intro h
    have hlt : ¬ mem.length < 3 := by omega
    have hlen : ((mem.drop (mem.length - 3)).map (fun e => e.actionType)).length = 3 := by
      simp only [List.length_map, List.length_drop]
      omega
    have hne : (mem.drop (mem.length - 3)).map (fun e => e.actionType) ≠ [] := by
      intro hnil
      rw [hnil] at hlen
      simp at hlen
    simp only [detect_loop, hlt, if_false, if_neg (by omega : ¬(3 : Nat) = 0)]
    rw [beq_iff_eq, dedup_length_one_iff]
    exact and_iff_right hne

/-- Witness for C6: three entries of identical type `"click"`. -/
theorem C6_witness :
    detect_loop [{ actionType := "click".toList, success := true },
                 { actionType := "click".toList, success := false },
                 { actionType := "click".toList, success := true }] 3 = true := by
  have h := (C6_detect_loop_spec
    [{ actionType := "click".toList, success := true },
     { actionType := "click".toList, success := false },
     { actionType := "click".toList, success := true }]).2 (by decide)
  exact h.mpr (by decide)


/-! ## C8 — TASK retry with exponential backoff -/

lemma run_attempts_aux_bound (respond : Nat → Bool) :
    ∀ (remaining attempt : Nat),
      (run_attempts_aux respond attempt remaining).2.1 ≤ attempt + remaining + 1 := by
  intro remaining
  induction remaining with
  | zero =>
    intro attempt
    by_cases h : respond attempt = true <;>
      simp only [run_attempts_aux, h, if_true, Bool.false_eq_true, if_false] <;> omega
  | succ r ih =>
    intro attempt
    by_cases h : respond attempt = true
    · simp only [run_attempts_aux, h, if_true]
      omega
    · simp only [run_attempts_aux, h, Bool.false_eq_true, if_false]
      have := ih (attempt + 1)
      omega

lemma run_attempts_aux_first_success (respond : Nat → Bool) :
    ∀ (remaining attempt i : Nat), attempt ≤ i → i ≤ attempt + remaining →
      (∀ j, attempt ≤ j → j < i → respond j = false) → respond i = true →
      run_attempts_aux respond attempt remaining =
        (true, i + 1, (List.range' attempt (i - attempt)).map (fun j => 2 ^ j)) := by
  intro remaining
  induction remaining with
  | zero =>
    intro attempt i h1 h2 _ h4
    have he : i = attempt := by omega
    subst he
    simp [run_attempts_aux, h4]
  | succ r ih =>
    intro attempt i h1 h2 h3 h4
    by_cases he : i = attempt
    · subst he
      simp [run_attempts_aux, h4]
    · have hfa : respond attempt = false := h3 attempt (le_refl _) (by omega)
      have hrec := ih (attempt + 1) i (by omega) (by omega)
        (fun j hj1 hj2 => h3 j (by omega) hj2) h4
      simp only [run_attempts_aux, hfa, Bool.false_eq_true, if_false, hrec]
      rw [show i - attempt = (i - (attempt + 1)) + 1 from by omega, List.range'_succ]
      simp

/-- C8: a TASK step with `retry_count = r` attempts the underlying task
at most `r + 1` times; it stops at the first success, having slept
`2 ^ attempt` seconds after each failed attempt that is followed by a
retry; with `r = 2` and an agent failing twice then succeeding, the step
succeeds after exactly 3 attempts with backoff sleeps `[1, 2]`, total at
least `1 + 2` seconds. -/
theorem C8_task_retry_backoff :
    (∀ (respond : Nat → Bool) (r : Nat), (run_attempts respond r).2.1 ≤ r + 1) ∧
    (∀ (respond : Nat → Bool) (r i : Nat), i ≤ r →
      (∀ j, j < i → respond j = false) → respond i = true →
      run_attempts respond r = (true, i + 1, (List.range i).map (fun j => 2 ^ j))) ∧
    ((run_attempts (fun k => decide (2 ≤ k)) 2).1 = true ∧
      (run_attempts (fun k => decide (2 ≤ k)) 2).2.1 = 3 ∧
      (run_attempts (fun k => decide (2 ≤ k)) 2).2.2 = [1, 2] ∧
      1 + 2 ≤ (run_attempts (fun k => decide (2 ≤ k)) 2).2.2.sum) := by
  refine ⟨?_, ?_, by decide⟩
  · intro respond r
    have := run_attempts_aux_bound respond r 0
    simpa [run_attempts] using this
  · intro respond r i h1 h2 h3
    have := run_attempts_aux_first_success respond r 0 i (Nat.zero_le _) (by omega)
      (fun j _ hj => h2 j hj) h3
    simpa [run_attempts, List.range_eq_range'] using this

/-- Witness for C8: applying the first-success clause at the scripted
agent that fails twice then succeeds. -/
theorem C8_witness :
    run_attempts (fun k => decide (1 ≤ k)) 3 =
      (true, 2, [1]) := by
  have h := C8_task_retry_backoff.2.1 (fun k => decide (1 ≤ k)) 3 1 (by omega)
    (fun j hj => by simp; omega) (by decide)
  exact h.trans (by decide)

/-! ## C4 — planner fallback behaviour -/

/-- Counterexample to C4 as stated: when the perception call raises,
`_create_strategic_plan` returns no Plan at all (`None`) instead of the
single-step fallback plan. -/
theorem C4_counterexample :
    create_strategic_plan "open chrome".toList VisionPlanOutcome.raises = none := rfl

/-- C4 (amended): `_create_tactical_plan` never fails outright — both an
exception and a missing structured decomposition yield the single-step
plan `[goal]` with confidence 0.5; `_create_strategic_plan` degrades to
the single-step plan `[task]` with confidence 0.5 only when the call
returns without a `'steps'` decomposition, and returns `None` (no Plan)
when the call raises. -/
theorem C4_planner_fallbacks :
    (∀ (goal overall : Str),
      create_tactical_plan goal overall VisionPlanOutcome.raises =
        { goal := goal, level := .tactical, steps := [goal],
          confidence := 1/2, estimated_actions := 5 }) ∧
    (∀ (goal overall : Str),
      create_tactical_plan goal overall (VisionPlanOutcome.result none) =
        { goal := goal, level := .tactical, steps := [goal],
          confidence := 1/2, estimated_actions := 5 }) ∧
    (∀ (goal overall : Str) (pr : PlanResp), pr.steps = none →
      create_tactical_plan goal overall (VisionPlanOutcome.result (some pr)) =
        { goal := goal, level := .tactical, steps := [goal],
          confidence := 1/2, estimated_actions := 5 }) ∧
    (∀ task : Str,
      create_strategic_plan task (VisionPlanOutcome.result none) =
        some { goal := task, level := .strategic, steps := [task],
               confidence := 1/2, estimated_actions := 10 }) ∧
    (∀ (task : Str) (pr : PlanResp), pr.steps = none →
      create_strategic_plan task (VisionPlanOutcome.result (some pr)) =
        some { goal := task, level := .strategic, steps := [task],
               confidence := 1/2, estimated_actions := 10 }) ∧
    (∀ task : Str, create_strategic_plan task VisionPlanOutcome.raises = none) := by
  refine ⟨fun _ _ => rfl, fun _ _ => rfl, ?_, fun _ => rfl, ?_, fun _ => rfl⟩
  · intro goal overall pr h
    simp only [create_tactical_plan, h]
  · intro task pr h
    simp only [create_strategic_plan, h]

/-- Witness for C4: the missing-`'steps'` clauses at a concrete
response carrying only a confidence. -/
theorem C4_witness :
    create_tactical_plan "click submit".toList "send the form".toList
        (VisionPlanOutcome.result (some { steps := none, confidence := some (9/10),
                                          estimated_actions := none, verification_points := none })) =
      { goal := "click submit".toList, level := .tactical, steps := ["click submit".toList],
        confidence := 1/2, estimated_actions := 5 } :=
  C4_planner_fallbacks.2.2.1 "click submit".toList "send the form".toList
    { steps := none, confidence := some (9/10),
      estimated_actions := none, verification_points := none } rfl

/-! ## C7 — variable substitution -/

lemma replaceAllAux_not_occurs (p v : Str) :
    ∀ t, occursIn p t = false → replaceAllAux p v 0 t = t := by
  intro t
  induction t with
  | nil => intro _; rfl
  | cons c rest ih =>
    intro h
    simp only [occursIn, Bool.or_eq_false_iff] at h
    simp [replaceAllAux, h.1, ih h.2]

lemma replaceAll_not_occurs (p v t : Str) (h : occursIn p t = false) :
    replaceAll p v t = t :=
  replaceAllAux_not_occurs p v t h

lemma substitute_variables_not_occurs :
    ∀ (ctx : List (Str × Str)) (t : Str),
      (∀ kv ∈ ctx, occursIn (placeholder kv.1) t = false) →
      substitute_variables ctx t = t := by
  intro ctx
  induction ctx with
  | nil => intro t _; rfl
  | cons kv ctx ih =>
    intro t h
    have h1 := h kv (by simp)
    have hrest : ∀ kv' ∈ ctx, occursIn (placeholder kv'.1) t = false :=
      fun kv' h' => h kv' (List.mem_cons_of_mem _ h')
    have htail := ih t hrest
    simp only [substitute_variables, List.foldl_cons] at htail ⊢
    rw [replaceAll_not_occurs _ _ _ h1]
    exact htail

lemma singleton_subst_aux (k v : Str) :
    ∀ t skip, replaceAllAux (placeholder k) v skip t = specSimAux [(k, v)] skip t := by
  intro t
  induction t with
  | nil => intro skip; cases skip <;> rfl
  | cons c rest ih =>
    intro skip
    cases skip with
    | succ n =>
      simp only [replaceAllAux, specSimAux]
      exact ih n
    | zero =>
      have hne : (placeholder k).isEmpty = false := rfl
      by_cases hp : isPre (placeholder k) (c :: rest) = true
      · have hfind : List.find? (fun kv => isPre (placeholder kv.1) (c :: rest)) [(k, v)] =
            some (k, v) :=
          List.find?_cons_of_pos _ (by simpa using hp)
        rw [show specSimAux [(k, v)] 0 (c :: rest) =
              v ++ specSimAux [(k, v)] ((placeholder k).length - 1) rest from by
            simp [specSimAux, hfind]]
        simp [replaceAllAux, hne, hp, ih]
      · have hfind : List.find? (fun kv => isPre (placeholder kv.1) (c :: rest)) [(k, v)] =
            none :=
          List.find?_cons_of_neg _ (by simpa using hp)
        rw [show specSimAux [(k, v)] 0 (c :: rest) =
              c :: specSimAux [(k, v)] 0 rest from by simp [specSimAux, hfind]]
        simp [replaceAllAux, hp, ih]

/-- Counterexample to C7 as stated: with bindings
`{"a": "{b}", "b": "X"}` (in that insertion order) the code substitutes
`"{a}"` to `"X"` — the occurrence of `{a}` is not replaced by `a`'s
value `"{b}"`; sequential replacement chains through it, unlike the
claimed simultaneous replace-every-placeholder-by-its-value reading. -/
theorem C7_counterexample :
    substitute_variables [("a".toList, "{b}".toList), ("b".toList, "X".toList)] "{a}".toList
        = "X".toList ∧
    specSimultaneousSubst [("a".toList, "{b}".toList), ("b".toList, "X".toList)] "{a}".toList
        = "{b}".toList ∧
    substitute_variables [("a".toList, "{b}".toList), ("b".toList, "X".toList)] "{a}".toList
        ≠ specSimultaneousSubst [("a".toList, "{b}".toList), ("b".toList, "X".toList)]
            "{a}".toList := by
  refine ⟨by decide, by decide, by decide⟩

/-- C7 (amended): substitution applies the bindings sequentially in
table order, so a value containing a later binding's placeholder is
itself substituted further.  It is idempotent on texts containing no
placeholder of a bound key; for tables with a single binding it agrees
with the simultaneous reading — every occurrence of `{name}` is
replaced by that key's value and all other text, unbound placeholders
included, is untouched; and the EXTRACT-then-TASK scenario (extraction
returning `"42"` into `x`, then task text `"use {x}"`) reaches the
agent as the literal text `"use 42"`. -/
theorem C7_substitution :
    (∀ (ctx : List (Str × Str)) (t : Str),
      (∀ kv ∈ ctx, occursIn (placeholder kv.1) t = false) →
      substitute_variables ctx (substitute_variables ctx t) = substitute_variables ctx t) ∧
    (∀ (k v t : Str),
      substitute_variables [(k, v)] t = specSimultaneousSubst [(k, v)] t) ∧
    ((exec_steps ⟨fun _ => true, fun _ _ => some "42".toList⟩
        [.extract (some "value".toList) none (some "x".toList) false,
         .task (some "use {x}".toList) 60 0 false] initState).2.taskCalls
      = [some "use 42".toList] ∧
     (exec_steps ⟨fun _ => true, fun _ _ => some "42".toList⟩
        [.extract (some "value".toList) none (some "x".toList) false,
         .task (some "use {x}".toList) 60 0 false] initState).1 = true) := by
  refine ⟨?_, ?_, ?_, ?_⟩
  · intro ctx t h
    rw [substitute_variables_not_occurs ctx t h, substitute_variables_not_occurs ctx t h]
  · intro k v t
    simp only [substitute_variables, List.foldl_cons, List.foldl_nil, replaceAll,
      specSimultaneousSubst]
    exact singleton_subst_aux k v t 0
  · simp only [exec_steps, exec_step, exec_extract_step, exec_task_step, incStep, initState,
      setVar, run_attempts, run_attempts_aux, substitute_variables, replaceAll, replaceAllAux,
      placeholder, isPre]
    decide
  · simp only [exec_steps, exec_step, exec_extract_step, exec_task_step, incStep, initState,
      setVar, run_attempts, run_attempts_aux, substitute_variables, replaceAll, replaceAllAux,
      placeholder, isPre]
    decide

/-- Witness for C7: idempotence applied at a concrete table and a text
with no matching placeholder. -/
theorem C7_witness :
    substitute_variables [("x".toList, "42".toList)]
        (substitute_variables [("x".toList, "42".toList)] "hello".toList) =
      substitute_variables [("x".toList, "42".toList)] "hello".toList :=
  C7_substitution.1 [("x".toList, "42".toList)] "hello".toList (by decide)

/-! ## C9 — fuzzy workflow retrieval -/

/-- The maximal word-overlap score any stored record reaches against a
normalized task key. -/
def maxFuzzy {α : Type} (key : Str) (store : List (Str × α)) : Nat :=
  store.foldl (fun x kv => max x (fuzzyScore key kv.1)) 0

lemma foldl_max_start_le {α : Type} (key : Str) :
    ∀ (l : List (Str × α)) (s : Nat),
      s ≤ l.foldl (fun x kv => max x (fuzzyScore key kv.1)) s := by
  intro l
  induction l with
  | nil => intro s; exact le_refl s
  | cons kv rest ih =>
    intro s
    exact le_trans (le_max_left s (fuzzyScore key kv.1)) (ih (max s (fuzzyScore key kv.1)))

lemma foldl_max_mem_le {α : Type} (key : Str) :
    ∀ (l : List (Str × α)) (s : Nat) (x : Str × α), x ∈ l →
      fuzzyScore key x.1 ≤ l.foldl (fun y kv => max y (fuzzyScore key kv.1)) s := by
  intro l
  induction l with
  | nil => intro s x hx; simp at hx
  | cons kv rest ih =>
    intro s x hx
    rcases List.mem_cons.mp hx with h | h
    · subst h
      exact le_trans (le_max_right s (fuzzyScore key x.1))
        (foldl_max_start_le key rest (max s (fuzzyScore key x.1)))
    · exact ih (max s (fuzzyScore key kv.1)) x h

lemma best_fold_char {α : Type} (key : Str) :
    ∀ (l : List (Str × α)) (b : Option α) (s m : Nat),
      l.foldl (fun x kv => max x (fuzzyScore key kv.1)) s = m →
      (l.foldl (fun acc kv =>
          if acc.2 < fuzzyScore key kv.1 then (some kv.2, fuzzyScore key kv.1) else acc)
          (b, s)).2 = m ∧
      (m = s →
        (l.foldl (fun acc kv =>
          if acc.2 < fuzzyScore key kv.1 then (some kv.2, fuzzyScore key kv.1) else acc)
          (b, s)).1 = b) ∧
      (s < m → ∃ kv, l.find? (fun kv => fuzzyScore key kv.1 == m) = some kv ∧
        (l.foldl (fun acc kv =>
          if acc.2 < fuzzyScore key kv.1 then (some kv.2, fuzzyScore key kv.1) else acc)
          (b, s)).1 = some kv.2) := by
  intro l
  induction l with
  | nil =>
    intro b s m hfold
    simp only [List.foldl_nil] at hfold ⊢
    refine ⟨hfold, ?_, ?_⟩
    · intro _
      trivial
    · intro hlt
      omega
  | cons kv rest ih =>
    intro b s m hfold
    simp only [List.foldl_cons] at hfold ⊢
    by_cases hc : s < fuzzyScore key kv.1
    · have hmax : max s (fuzzyScore key kv.1) = fuzzyScore key kv.1 :=
        max_eq_right (le_of_lt hc)
      rw [hmax] at hfold
      have hkvle : fuzzyScore key kv.1 ≤ m := by
        rw [← hfold]
        exact foldl_max_start_le key rest _
      obtain ⟨h2, h3, h4⟩ := ih (some kv.2) (fuzzyScore key kv.1) m hfold
      rw [if_pos (show (b, s).2 < fuzzyScore key kv.1 from hc)]
      refine ⟨h2, ?_, ?_⟩
      · intro hms
        omega
      · intro _
        by_cases hm : fuzzyScore key kv.1 = m
        · refine ⟨kv, ?_, h3 hm.symm⟩
          rw [List.find?_cons_of_pos _ (by simp [hm])]
        · have hlt : fuzzyScore key kv.1 < m := lt_of_le_of_ne hkvle hm
          obtain ⟨kv', hfind, hbest⟩ := h4 hlt
          refine ⟨kv', ?_, hbest⟩
          rw [List.find?_cons_of_neg _ (by simp [hm])]
          exact hfind
    · have hmax : max s (fuzzyScore key kv.1) = s := max_eq_left (by omega)
      rw [hmax] at hfold
      obtain ⟨h2, h3, h4⟩ := ih b s m hfold
      rw [if_neg (show ¬ (b, s).2 < fuzzyScore key kv.1 from hc)]
      refine ⟨h2, h3, ?_⟩
      intro hsm
      obtain ⟨kv', hfind, hbest⟩ := h4 hsm
      have hne : ¬ fuzzyScore key kv.1 = m := by omega
      refine ⟨kv', ?_, hbest⟩
      rw [List.find?_cons_of_neg _ (by simp [hne])]
      exact hfind

/-- C9: `get_similar_workflow` returns the record stored under the exact
normalized key when present; otherwise it returns the first-seen record
attaining the maximal word-overlap score, provided that maximum is at
least 2 words, and nothing when every overlap is below 2. -/
theorem C9_get_similar_workflow_spec :
    ∀ (α : Type) (store : List (Str × α)) (task : Str),
      (∀ d, lookupStr (normalize_task task) store = some d →
        get_similar_workflow store task = some d) ∧
      (lookupStr (normalize_task task) store = none →
        (maxFuzzy (normalize_task task) store < 2 →
          get_similar_workflow store task = none) ∧
        (2 ≤ maxFuzzy (normalize_task task) store →
          ∃ kv, store.find? (fun kv =>
              fuzzyScore (normalize_task task) kv.1 == maxFuzzy (normalize_task task) store)
              = some kv ∧
            get_similar_workflow store task = some kv.2 ∧
            fuzzyScore (normalize_task task) kv.1 = maxFuzzy (normalize_task task) store ∧
            ∀ x ∈ store,
              fuzzyScore (normalize_task task) x.1 ≤ maxFuzzy (normalize_task task) store)) := by
  intro α store task
  constructor
  · intro d h
    simp only [get_similar_workflow, h]
  · intro h
    have hchar := best_fold_char (normalize_task task) store none 0
      (maxFuzzy (normalize_task task) store) rfl
    constructor
    · intro hm
      simp only [get_similar_workflow, h]
      rw [hchar.1, if_neg (by omega)]
    · intro hm
      obtain ⟨kv, hfind, hbest⟩ := hchar.2.2 (by omega)
      refine ⟨kv, hfind, ?_, ?_, ?_⟩
      · simp only [get_similar_workflow, h]
        rw [hchar.1, if_pos hm, hbest]
      · have := List.find?_some hfind
        simpa using this
      · intro x hx
        exact foldl_max_mem_le (normalize_task task) store 0 x hx

/-- Witness for C9: a two-record store where the task shares two words
with the second record and one with the first. -/
theorem C9_witness :
    get_similar_workflow
        [("open gmail inbox".toList, (1 : Nat)), ("open chrome browser".toList, 2)]
        "Open Chrome now".toList = some 2 := by
  obtain ⟨kv, hfind, hres, _, _⟩ :=
    ((C9_get_similar_workflow_spec Nat
        [("open gmail inbox".toList, (1 : Nat)), ("open chrome browser".toList, 2)]
        "Open Chrome now".toList).2 (by decide)).2 (by decide)
  have hf : List.find? (fun kv =>
      fuzzyScore (normalize_task "Open Chrome now".toList) kv.1 ==
        maxFuzzy (normalize_task "Open Chrome now".toList)
          [("open gmail inbox".toList, (1 : Nat)), ("open chrome browser".toList, 2)])
      [("open gmail inbox".toList, (1 : Nat)), ("open chrome browser".toList, 2)] =
      some ("open chrome browser".toList, 2) := by decide
  rw [hf] at hfind
  have hkv := Option.some.inj hfind
  rw [hres, ← hkv]

/-! ## C1 — non-optional failure in the workflow engine -/

lemma exec_steps_false_decomp (env : EngineEnv) :
    ∀ (steps : List WorkflowStep) (st st' : EngineState),
      exec_steps env steps st = (false, st') →
      ∃ pre s post stm, steps = pre ++ s :: post ∧
        exec_steps env pre st = (true, stm) ∧
        s.optional = false ∧ exec_step env s stm = (false, st') := by
  intro steps
  induction steps with
  | nil =>
    intro st st' h
    simp [exec_steps] at h
  | cons s rest ih =>
    intro st st' h
    rcases hr : exec_step env s st with ⟨b, st2⟩
    simp only [exec_steps, hr] at h
    cases b with
    | true =>
      simp only [if_true] at h
      obtain ⟨pre, s', post, stm, he, hpre, hopt, hstep⟩ := ih st2 st' h
      refine ⟨s :: pre, s', post, stm, by simp [he], ?_, hopt, hstep⟩
      simp only [exec_steps, hr, if_true]
      exact hpre
    | false =>
      cases hopt : s.optional with
      | true =>
        simp only [hopt, Bool.false_eq_true, if_false, if_true] at h
        obtain ⟨pre, s', post, stm, he, hpre, hopt', hstep⟩ := ih st2 st' h
        refine ⟨s :: pre, s', post, stm, by simp [he], ?_, hopt', hstep⟩
        simp only [exec_steps, hr, hopt, Bool.false_eq_true, if_false, if_true]
        exact hpre
      | false =>
        simp only [hopt, Bool.false_eq_true, if_false] at h
        have hst : st2 = st' := (Prod.mk.injEq _ _ _ _).mp h |>.2
        refine ⟨[], s, rest, st, rfl, by simp [exec_steps], hopt, ?_⟩
        rw [hr, hst]

/-- C1 (amended): whenever the top-level step sequence fails — that is,
some top-level step fails with `optional=False` (failures nested inside
an optional parent step are swallowed by the parent) — `execute`
returns `success=False` with `extracted_data` equal to the bindings
accumulated up to the failure, but `failed_at` (and `error`) are left
unset (`None`): the non-exception path of `execute` never assigns
them. -/
theorem C1_execute_nonoptional_failure :
    ∀ (env : EngineEnv) (steps : List WorkflowStep) (st' : EngineState),
      exec_steps env steps initState = (false, st') →
      (execute env steps).success = false ∧
      (execute env steps).extracted_data = st'.context ∧
      (execute env steps).failed_at = none ∧
      (execute env steps).error = none ∧
      ∃ pre s post stm, steps = pre ++ s :: post ∧
        exec_steps env pre initState = (true, stm) ∧
        s.optional = false ∧ exec_step env s stm = (false, st') := by
  intro env steps st' h
  refine ⟨?_, ?_, rfl, rfl, exec_steps_false_decomp env steps initState st' h⟩
  · simp only [execute, h]
  · simp only [execute, h]

/-- Counterexample to C1 as stated: a single non-optional TASK step
whose agent call fails makes `execute` return `success=False`, yet
`failed_at` is `None` rather than the failed step — `execute` never
assigns `failed_at`. -/
theorem C1_counterexample :
    (execute ⟨fun _ => false, fun _ _ => none⟩
        [.task (some "do it".toList) 60 0 false]).success = false ∧
    WorkflowStep.optional (.task (some "do it".toList) 60 0 false) = false ∧
    (exec_step ⟨fun _ => false, fun _ _ => none⟩
        (.task (some "do it".toList) 60 0 false) initState).1 = false ∧
    (execute ⟨fun _ => false, fun _ _ => none⟩
        [.task (some "do it".toList) 60 0 false]).failed_at = none := by
  refine ⟨?_, rfl, ?_, rfl⟩
  · simp only [execute, exec_steps, exec_step, exec_task_step, incStep, initState,
      run_attempts, run_attempts_aux]
    decide
  · simp only [exec_step, exec_task_step, incStep, initState, run_attempts, run_attempts_aux]
    decide

/-- Witness for C1: the amended theorem applied to the failing
single-step workflow above. -/
theorem C1_witness :
    (execute ⟨fun _ => false, fun _ _ => none⟩
        [.task (some "do it".toList) 60 0 false]).success = false :=
  (C1_execute_nonoptional_failure ⟨fun _ => false, fun _ _ => none⟩
    [.task (some "do it".toList) 60 0 false]
    { context := [], step_count := 1, agentIdx := 1, extractIdx := 0,
      taskCalls := [some "do it".toList], sleeps := [] }
    (by
      simp only [exec_steps, exec_step, exec_task_step, incStep, initState,
        run_attempts, run_attempts_aux]
      decide)).1

/-! ## C10 — WAIT_HUMAN steps always auto-approve -/

lemma exec_step_wait_human (env : EngineEnv) (msg : Option Str) (opt : Bool)
    (st : EngineState) : exec_step env (.wait_human msg opt) st = (true, incStep st) := by
  simp [exec_step]

/-- C10: a WAIT_HUMAN step always succeeds — it auto-approves
unconditionally, changing nothing but the step counter (in particular
the bindings table is untouched) — and consequently no step at which a
workflow fails is ever a WAIT_HUMAN step. -/
theorem C10_wait_human_auto_approve :
    (∀ (env : EngineEnv) (msg : Option Str) (opt : Bool) (st : EngineState),
      exec_step env (.wait_human msg opt) st = (true, incStep st) ∧
      (incStep st).context = st.context) ∧
    (∀ (env : EngineEnv) (s : WorkflowStep) (st : EngineState),
      (exec_step env s st).1 = false → ∀ msg opt, s ≠ .wait_human msg opt) := by
  refine ⟨fun env msg opt st => ⟨exec_step_wait_human env msg opt st, rfl⟩, ?_⟩
  intro env s st h msg opt heq
  subst heq
  rw [exec_step_wait_human] at h
  simp at h

/-- Witness for C10: a failing DECISION step (no condition supplied) is
not a WAIT_HUMAN step. -/
theorem C10_witness :
    (WorkflowStep.decision none [] [] false : WorkflowStep) ≠ .wait_human none false :=
  C10_wait_human_auto_approve.2 ⟨fun _ => false, fun _ _ => none⟩
    (WorkflowStep.decision none [] [] false) initState (by simp [exec_step]) none false

/-! ## C2 — control-loop exit conditions -/

lemma ooda_loop_cases (env : LoopEnv) (timeout : Nat) :
    ∀ (fuel iter actions : Nat) (mem : List MemEntry) (expl : List Nat),
      ((ooda_loop env timeout fuel iter actions mem expl).success = true ∧
        (ooda_loop env timeout fuel iter actions mem expl).error = none ∧
        ∃ a, env.ooda (ooda_loop env timeout fuel iter actions mem expl).itersDone = some a ∧
          a.type = ActionType.done) ∨
      ((ooda_loop env timeout fuel iter actions mem expl).success = false ∧
        (ooda_loop env timeout fuel iter actions mem expl).error = some (timeoutMsg timeout) ∧
        timeout < env.elapsed (ooda_loop env timeout fuel iter actions mem expl).itersDone) ∨
      ((ooda_loop env timeout fuel iter actions mem expl).success = false ∧
        (ooda_loop env timeout fuel iter actions mem expl).error = some maxIterMsg ∧
        ((ooda_loop env timeout fuel iter actions mem expl).itersDone = iter + fuel ∨
          env.ooda (ooda_loop env timeout fuel iter actions mem expl).itersDone = none)) := by
  intro fuel
  induction fuel with
  | zero =>
    intro iter actions mem expl
    right; right
    exact ⟨rfl, rfl, Or.inl rfl⟩
  | succ n ih =>
    intro iter actions mem expl
    by_cases ht : timeout < env.elapsed (iter + 1)
    · right; left
      have hloop : ooda_loop env timeout (n + 1) iter actions mem expl =
          { success := false, actions_taken := actions, error := some (timeoutMsg timeout),
            itersDone := iter + 1, explorations := expl } := by
        simp [ooda_loop, ht]
      rw [hloop]
      exact ⟨rfl, rfl, ht⟩
    · rcases ho : env.ooda (iter + 1) with _ | a
      · right; right
        have hloop : ooda_loop env timeout (n + 1) iter actions mem expl =
            { success := false, actions_taken := actions, error := some maxIterMsg,
              itersDone := iter + 1, explorations := expl } := by
          simp [ooda_loop, ht, ho]
        rw [hloop]
        exact ⟨rfl, rfl, Or.inr ho⟩
      · by_cases hd : a.type = ActionType.done
        · left
          have hloop : ooda_loop env timeout (n + 1) iter actions mem expl =
              { success := true, actions_taken := actions, error := none,
                itersDone := iter + 1, explorations := expl } := by
            simp [ooda_loop, ht, ho, hd]
          rw [hloop]
          exact ⟨rfl, rfl, a, ho, hd⟩
        · have step : ooda_loop env timeout (n + 1) iter actions mem expl =
              ooda_loop env timeout n (iter + 1) (actions + 1)
                (stm_add 10 mem { actionType := a.type.value, success := env.execSuccess (iter + 1) })
                (if !env.execSuccess (iter + 1) &&
                    detect_loop (stm_add 10 mem
                      { actionType := a.type.value, success := env.execSuccess (iter + 1) }) 3
                  then expl ++ [iter + 1] else expl) := by
            simp only [ooda_loop, ht, if_false, ho, hd]
          rw [step]
          have hiter : (iter + 1) + n = iter + (n + 1) := by omega
          have h := ih (iter + 1) (actions + 1)
            (stm_add 10 mem { actionType := a.type.value, success := env.execSuccess (iter + 1) })
            (if !env.execSuccess (iter + 1) &&
                detect_loop (stm_add 10 mem
                  { actionType := a.type.value, success := env.execSuccess (iter + 1) }) 3
              then expl ++ [iter + 1] else expl)
          rw [hiter] at h
          exact h

/-- C2 (amended): every run of the control loop terminates in exactly
one of three ways — success with no error when a `done` decision is
reached; failure with the exact message `"Timeout after {timeout}s"`
(capital T) when the wall-clock check at the top of an iteration
exceeds the timeout; or failure with the exact message `"Max iterations
reached without completion"`, which is reported both when the iteration
budget is exhausted and when `_ooda_cycle` yields no decision (the
missing-decision `break` falls through to the max-iterations return, so
its failure reuses that message even on the first iteration).  The two
failure messages are distinct. -/
theorem C2_exit_conditions :
    ∀ (env : LoopEnv) (max_iterations timeout : Nat),
      (((execute_task env max_iterations timeout).success = true ∧
         (execute_task env max_iterations timeout).error = none ∧
         ∃ a, env.ooda (execute_task env max_iterations timeout).itersDone = some a ∧
           a.type = ActionType.done) ∨
       ((execute_task env max_iterations timeout).success = false ∧
         (execute_task env max_iterations timeout).error = some (timeoutMsg timeout) ∧
         timeout < env.elapsed (execute_task env max_iterations timeout).itersDone) ∨
       ((execute_task env max_iterations timeout).success = false ∧
         (execute_task env max_iterations timeout).error = some maxIterMsg ∧
         ((execute_task env max_iterations timeout).itersDone = max_iterations ∨
           env.ooda (execute_task env max_iterations timeout).itersDone = none))) ∧
      (∀ t', timeoutMsg t' ≠ maxIterMsg) := by
  intro env max_iterations timeout
  constructor
  · have h := ooda_loop_cases env timeout max_iterations 0 0 [] []
    simpa [execute_task] using h
  · intro t' h
    have hT : (timeoutMsg t').head? = some 'T' := rfl
    rw [h] at hT
    have hM : maxIterMsg.head? = some 'M' := rfl
    rw [hM] at hT
    exact absurd hT (by decide)

/-- Counterexample to C2 as stated: a perception that yields no decision
on the very first iteration aborts the loop with the "Max iterations
reached without completion" failure although only 1 of the 30 budgeted
iterations ran — the "max iterations" reason is not reserved for an
exhausted budget. -/
theorem C2_counterexample :
    (execute_task ⟨fun _ => 0, fun _ => none, fun _ => true⟩ 30 240).success = false ∧
    (execute_task ⟨fun _ => 0, fun _ => none, fun _ => true⟩ 30 240).error = some maxIterMsg ∧
    (execute_task ⟨fun _ => 0, fun _ => none, fun _ => true⟩ 30 240).itersDone = 1 ∧
    (1 : Nat) ≠ 30 := by decide

/-- Witness for C2: the message-distinctness clause at `timeout = 240`. -/
theorem C2_witness : timeoutMsg 240 ≠ maxIterMsg :=
  (C2_exit_conditions ⟨fun _ => 0, fun _ => none, fun _ => true⟩ 5 240).2 240

/-! ## C3 — exploration trigger -/

lemma ooda_expl_only_failures (env : LoopEnv) (timeout : Nat) :
    ∀ (fuel iter actions : Nat) (mem : List MemEntry) (expl : List Nat),
      (∀ j ∈ expl, env.execSuccess j = false) →
      ∀ j ∈ (ooda_loop env timeout fuel iter actions mem expl).explorations,
        env.execSuccess j = false := by
  intro fuel
  induction fuel with
  | zero =>
    intro iter actions mem expl hinv
    exact hinv
  | succ n ih =>
    intro iter actions mem expl hinv
    by_cases ht : timeout < env.elapsed (iter + 1)
    · simp only [ooda_loop, ht, if_true]
      exact hinv
    · rcases ho : env.ooda (iter + 1) with _ | a
      · simp only [ooda_loop, ht, if_false, ho]
        exact hinv
      · by_cases hd : a.type = ActionType.done
        · simp only [ooda_loop, ht, if_false, ho, hd, if_true]
          exact hinv
        · simp only [ooda_loop, ht, if_false, ho, hd]
          apply ih
          by_cases hc : (!env.execSuccess (iter + 1) &&
              detect_loop (stm_add 10 mem
                { actionType := a.type.value, success := env.execSuccess (iter + 1) }) 3) = true
          · simp only [hc, if_true]
            intro j hj
            rcases List.mem_append.mp hj with hj' | hj'
            · exact hinv j hj'
            · have hj0 : j = iter + 1 := by simpa using hj'
              subst hj0
              have := (Bool.and_eq_true _ _).mp hc |>.1
              simpa using this
          · simp only [hc, Bool.false_eq_true, if_false]
            exact hinv

/-- C3 (amended): the control loop requests an alternative exploration
decision only at iterations whose dispatched action failed — the
repeated-action check is nested inside the failure branch, so repeated
identical *successful* actions never trigger exploration; and the
requested alternative decision is discarded, not executed.  When the
scripted perception returns the same `click(10,10)` action and every
dispatch fails, exploration is requested exactly at the 3rd
repetition. -/
theorem C3_exploration_trigger :
    (∀ (env : LoopEnv) (max_iterations timeout : Nat),
      ∀ j ∈ (execute_task env max_iterations timeout).explorations,
        env.execSuccess j = false) ∧
    (execute_task ⟨fun _ => 0, fun _ => some { type := .click, x := some 10, y := some 10 },
        fun _ => false⟩ 3 240).explorations = [3] := by
  refine ⟨?_, by decide⟩
  intro env max_iterations timeout
  simp only [execute_task]
  exact ooda_expl_only_failures env timeout max_iterations 0 0 [] [] (by simp)

/-- Counterexample to C3 as stated: the same `click(10,10)` decision
repeated (and dispatched successfully) 5 times in a row triggers no
exploration at all — loop detection is only consulted after a failed
action. -/
theorem C3_counterexample :
    (execute_task ⟨fun _ => 0, fun _ => some { type := .click, x := some 10, y := some 10 },
        fun _ => true⟩ 5 240).explorations = [] ∧
    (execute_task ⟨fun _ => 0, fun _ => some { type := .click, x := some 10, y := some 10 },
        fun _ => true⟩ 5 240).actions_taken = 5 := by decide

/-- Witness for C3: the only-failures clause applied at the failing
scripted click environment and the recorded exploration iteration 3. -/
theorem C3_witness :
    (⟨fun _ => 0, fun _ => some { type := .click, x := some 10, y := some 10 },
        fun _ => false⟩ : LoopEnv).execSuccess 3 = false :=
  C3_exploration_trigger.1
    ⟨fun _ => 0, fun _ => some { type := .click, x := some 10, y := some 10 }, fun _ => false⟩
    3 240 3 (by decide)
